import Mathlib

/-!
Shallow embedding of the transcription-job pipeline of `app.py`
(`sungki1972/youtubestt1.13`).

The program's pure structure is translated into Lean directly; its external
effects (subprocess invocations of `ffprobe`/`ffmpeg`, the remote Whisper STT
call, the Supabase record store, the Telegram sink, the filesystem) are
modelled by explicit environments of oracles, and each function additionally
returns the ordered list of side-effecting events it performs, so that claims
about call order, cleanup and record writes become statements about event
traces.
-/

namespace YoutubeSTT

/-! ### Generic helpers -/

/-- Python `int()` truncation toward zero on a rational. -/
def truncQ (q : ℚ) : ℤ := if 0 ≤ q then ⌊q⌋ else ⌈q⌉

/-- Proposition that the string `s` starts with the string `pre`. -/
def beginsWith (pre s : String) : Prop := s.data.take pre.data.length = pre.data

instance (pre s : String) : Decidable (beginsWith pre s) :=
  inferInstanceAs (Decidable (_ = _))

/-- Boolean test that `pat` is a prefix of the character list. -/
def isPrefixList : List Char → List Char → Bool
  | [], _ => true
  | _ :: _, [] => false
  | p :: ps, c :: cs => p == c && isPrefixList ps cs

/-- Fuel-indexed worker for `pyReplace`; the fuel bounds the number of scan
steps, one character consumed per step, so `s.length` fuel is always enough. -/
def replaceFuel (pat rep : List Char) : Nat → List Char → List Char
  | 0, l => l
  | _ + 1, [] => []
  | n + 1, c :: cs =>
    if isPrefixList pat (c :: cs) then
      rep ++ replaceFuel pat rep n (cs.drop (pat.length - 1))
    else c :: replaceFuel pat rep n cs

/-- Python `str.replace`: replace every non-overlapping occurrence of `pat`
left to right (executable model of `chunk_path.replace('.mp3', '_small.mp3')`). -/
def pyReplace (s pat rep : String) : String :=
  if pat.data.isEmpty then s else ⟨replaceFuel pat.data rep.data s.data.length s.data⟩

/-- Python string slice `s[:n]`: the first `n` characters of `s`. -/
def pyTrunc (s : String) (n : ℕ) : String := ⟨s.data.take n⟩

instance : DecidableEq (Except String String) := fun a b =>
  match a, b with
  | .error x, .error y => if h : x = y then isTrue (by rw [h]) else isFalse (by simp [h])
  | .error _, .ok _ => isFalse (by simp)
  | .ok _, .error _ => isFalse (by simp)
  | .ok x, .ok y => if h : x = y then isTrue (by rw [h]) else isFalse (by simp [h])

/-- Path with its last dot-extension removed, modelling the
`os.path.splitext(os.path.basename(...))[0]` / `os.path.join(dirname, ...)`
round trip of `split_audio_file` (the stem keeps its directory part). -/
def dropExtension (p : String) : String :=
  let r := p.data.reverse
  if '.' ∈ r then ⟨((r.dropWhile (fun c => c ≠ '.')).drop 1).reverse⟩ else p

/-! ### Audio prober (`get_audio_duration`, app.py lines 112-122) -/

/-- Outcome of the external `ffprobe` invocation: either the subprocess call
raised (missing binary, corrupt file, timeout), or it ran and its stripped
stdout either parses as a float (`some v`) or does not (`none`, in which case
Python's `float(...)` raises `ValueError`). -/
inductive ProbeOutcome where
  | fail (msg : String)
  | output (parsed : Option ℚ)
deriving DecidableEq

/-- Model of `get_audio_duration`: the whole body is wrapped in
`try ... except Exception: return 0`, so every failure of the probe collapses
to `0` and the function is total (never raises). -/
def get_audio_duration : ProbeOutcome → ℚ
  | .fail _ => 0
  | .output none => 0
  | .output (some v) => v

/-- A probe outcome that did not yield a parsed duration (subprocess failure
of any kind, or unparsable stdout). -/
def probeFailed : ProbeOutcome → Prop
  | .fail _ => True
  | .output none => True
  | .output (some _) => False

instance (o : ProbeOutcome) : Decidable (probeFailed o) := by
  cases o with
  | fail _ => exact isTrue trivial
  | output p => cases p with
    | none => exact isTrue trivial
    | some _ => exact isFalse id

/-! ### Splitter and size-aware transcriber
(`split_audio_file` app.py lines 125-151, `transcribe_with_openai` lines 154-199) -/

/-- Environment of external effects seen by the splitter and transcriber:
`size p` is `os.path.getsize(p)`; `dur p` is the value `get_audio_duration(p)`
returns (total, `0` on probe failure); `extractOk dst` is the outcome of the
`ffmpeg -ss ... -t ...` chunk extraction writing `dst` (`none` = success,
`some e` = `subprocess.run(..., check=True)` raised with message `e`);
`reencodeOk dst` likewise for the 64 kbps re-encode writing `dst`; `stt p` is
the remote Whisper transcription of file `p`. -/
structure TEnv where
  size : String → ℕ
  dur : String → ℚ
  extractOk : String → Option String
  reencodeOk : String → Option String
  stt : String → Except String String

/-- Side-effecting events performed by the splitter/transcriber, in order. -/
inductive TEvent where
  | splitCall (p : String)
  | extract (src dst : String) (start len : ℚ)
  | reencode (src dst : String)
  | remote (p : String)
  | removeFile (p : String)
deriving DecidableEq

/-- The Whisper payload ceiling of `transcribe_with_openai`:
`max_size = 24 * 1024 * 1024`. -/
def maxSize : ℕ := 24 * 1024 * 1024

/-- Chunk path `f"{base_name}_chunk_{i}.mp3"` placed next to the source. -/
def chunkPath (audio_path : String) (i : ℕ) : String :=
  dropExtension audio_path ++ "_chunk_" ++ toString i ++ ".mp3"

/-- Chunk count `int(duration / max_duration) + 1` (Python `int()` truncates
toward zero; the result is converted to a natural to drive the loop). -/
def num_chunks (d m : ℚ) : ℕ := (truncQ (d / m) + 1).toNat

/-- The extraction loop of `split_audio_file`: for each index `i` run
`ffmpeg -ss i*max_duration -t max_duration`; `check=True` makes a failing
extraction raise, aborting the whole split with that error. -/
def extractLoop (env : TEnv) (audio_path : String) (m : ℚ) :
    List ℕ → Except String (List String) × List TEvent
  | [] => (.ok [], [])
  | i :: is =>
    let cp := chunkPath audio_path i
    let ev : TEvent := .extract audio_path cp ((i : ℚ) * m) m
    match env.extractOk cp with
    | some e => (.error e, [ev])
    | none =>
      match extractLoop env audio_path m is with
      | (.error e, evs) => (.error e, ev :: evs)
      | (.ok cs, evs) => (.ok (cp :: cs), ev :: evs)

/-- Model of `split_audio_file(audio_path, max_duration)`: if the probed
duration is at most `max_duration` the original path is returned unchanged
(no subprocess runs at all); otherwise `num_chunks` extractions are requested
at offsets `i * max_duration`, each spanning `max_duration` seconds. -/
def split_audio_file (env : TEnv) (audio_path : String) (m : ℚ) :
    Except String (List String) × List TEvent :=
  let d := env.dur audio_path
  if d ≤ m then (.ok [audio_path], [])
  else extractLoop env audio_path m (List.range (num_chunks d m))

/-- The reduced-bitrate target path `chunk_path.replace('.mp3', '_small.mp3')`. -/
def smallPath (p : String) : String := pyReplace p ".mp3" "_small.mp3"

/-- The path actually submitted to the remote STT for a chunk: the 64 kbps
re-encode when the chunk is over the ceiling, the chunk itself otherwise. -/
def effPath (env : TEnv) (p : String) : String :=
  if maxSize < env.size p then smallPath p else p

/-- The per-chunk body of `transcribe_with_openai`'s loop: an over-ceiling
chunk is re-encoded once at 64 kbps (then the chunk file, if it is not the
caller's original, is removed); the resulting file is sent to the remote STT
with no further size check; after the call returns successfully the sent
file, if it is not the caller's original, is removed.  Any raise propagates
immediately. -/
def processChunk (env : TEnv) (audio_path chunk_path : String) :
    Except String String × List TEvent :=
  if maxSize < env.size chunk_path then
    let small := smallPath chunk_path
    match env.reencodeOk small with
    | some e => (.error e, [.reencode chunk_path small])
    | none =>
      let ev1 : List TEvent :=
        if chunk_path ≠ audio_path then
          [.reencode chunk_path small, .removeFile chunk_path]
        else [.reencode chunk_path small]
      match env.stt small with
      | .error e => (.error e, ev1 ++ [.remote small])
      | .ok t =>
        if small ≠ audio_path then (.ok t, ev1 ++ [.remote small, .removeFile small])
        else (.ok t, ev1 ++ [.remote small])
  else
    match env.stt chunk_path with
    | .error e => (.error e, [.remote chunk_path])
    | .ok t =>
      if chunk_path ≠ audio_path then
        (.ok t, [.remote chunk_path, .removeFile chunk_path])
      else (.ok t, [.remote chunk_path])

/-- Sequential processing of the chunk list, aborting at the first raise. -/
def processChunks (env : TEnv) (audio_path : String) :
    List String → Except String (List String) × List TEvent
  | [] => (.ok [], [])
  | c :: cs =>
    match processChunk env audio_path c with
    | (.error e, ev) => (.error e, ev)
    | (.ok t, ev) =>
      match processChunks env audio_path cs with
      | (.error e, ev2) => (.error e, ev ++ ev2)
      | (.ok ts, ev2) => (.ok (t :: ts), ev ++ ev2)

/-- Model of `transcribe_with_openai(audio_path)`: a file at or under the
24MB ceiling is sent in one remote call and its text returned verbatim;
otherwise the file is split (`split_audio_file` with its default 600-second
quantum), each chunk is processed in order by `processChunk`, and the
per-chunk transcripts are joined with `"\n\n"`. -/
def transcribe_with_openai (env : TEnv) (audio_path : String) :
    Except String String × List TEvent :=
  if env.size audio_path ≤ maxSize then
    (env.stt audio_path, [.remote audio_path])
  else
    match split_audio_file env audio_path 600 with
    | (.error e, ev) => (.error e, .splitCall audio_path :: ev)
    | (.ok chunks, ev) =>
      match processChunks env audio_path chunks with
      | (.error e, ev2) => (.error e, .splitCall audio_path :: (ev ++ ev2))
      | (.ok ts, ev2) =>
        (.ok (String.intercalate "\n\n" ts), .splitCall audio_path :: (ev ++ ev2))

/-- The time span of audio an `ffmpeg -ss start -t len` extraction actually
yields from a file of duration `d`: ffmpeg clamps the request to end-of-file
rather than failing, so the span is `[start, min (start+len) d)`. -/
def clampedSpan (d start len : ℚ) : Set ℚ := Set.Ico start (min (start + len) d)

/-! ### Job pipeline
(`update_progress` app.py lines 101-109, `process_youtube_stt_task` lines
202-271, `process_file_stt_task` lines 274-332) -/

/-- One attempted update of the job record: only the fields present in the
Python dict passed to `supabase...update({...})` are `some`. -/
structure RecWrite where
  status : Option String := none
  progress : Option ℤ := none
  title : Option String := none
  subtitle : Option String := none
deriving DecidableEq

/-- Side-effecting events performed by a pipeline run, in order.  A `write`
carries the attempted record update and whether the record store accepted it
(`ok = false` means the store raised). -/
inductive PEvent where
  | write (w : RecWrite) (ok : Bool)
  | notifyFail (msg : String)
  | notifySuccess
  | removeFile (p : String)
deriving DecidableEq

/-- Environment for `process_youtube_stt_task`: `db k` is the outcome of the
`k`-th record-store write attempt of this run (`none` = accepted, `some e` =
the store raised with message `e`); `title` is the `get_youtube_title` result
(that helper swallows its own failures and returns a placeholder, so it never
raises); `download` is the `download_youtube_audio` outcome (the downloaded
path, or a raise); `ffmpeg` is the outcome of the mp3-normalization
subprocess (`none` = success); `stt` is the outcome of
`transcribe_with_openai`. -/
structure YEnv where
  db : ℕ → Option String
  title : String
  download : Except String String
  ffmpeg : Option String
  stt : Except String String

/-- Environment for `process_file_stt_task`: `normalize` covers both
branches of step 1 (the `shutil.copy` for `.mp3` inputs and the `ffmpeg`
transcode otherwise — either may raise). -/
structure FEnv where
  db : ℕ → Option String
  normalize : Option String
  stt : Except String String

/-- The record update performed by the `update_progress` helper:
`{"status": status, "progress": progress}` with `status` defaulting to
`"processing"`.  The helper swallows any store failure, so the pipeline's
control flow never depends on the outcome. -/
def update_progress (p : ℤ) : RecWrite :=
  {status := some "processing", progress := some p}

/-- Whether the `k`-th record-store write of the run is accepted. -/
def dbOkAt (db : ℕ → Option String) (k : ℕ) : Bool := (db k).isNone

/-- The status string written on failure: `f"error: {error_msg[:200]}"`. -/
def errStatus (msg : String) : String := "error: " ++ pyTrunc msg 200

/-- The `except Exception` block shared by both tasks: one direct record
write of the error status and a progress reset to 0 (if the store raises
here the exception escapes the thread: no notification, no cleanup), then a
failure notification, then removal of each still-existing temporary file.
`k` is the index of this write attempt; `files` are the temporary files that
exist at the failure point. -/
def errorTrace (db : ℕ → Option String) (k : ℕ) (msg : String) (files : List String) :
    List PEvent :=
  let w : RecWrite := {status := some (errStatus msg), progress := some 0}
  match db k with
  | some _ => [.write w false]
  | none => .write w true :: .notifyFail (pyTrunc msg 200) :: files.map .removeFile

/-- Trace model of `process_youtube_stt_task(record_id, youtube_url)`.
Record-store write attempts are numbered in program order; the writes made
through `update_progress` swallow failure, while the title write (progress
10) and the terminal writes are direct `supabase...update` calls whose
failure raises into the `except` block.  A temporary file is modelled as
existing once the step creating it has succeeded (the mp3 is
`f"{record_id}.mp3"` in the download directory). -/
def process_youtube_stt_task (env : YEnv) (record_id : String) : List PEvent :=
  let mp3 := record_id ++ ".mp3"
  let e0 : List PEvent :=
    [.write (update_progress 5) (dbOkAt env.db 0),
     .write {title := some env.title, progress := some 10} (dbOkAt env.db 1)]
  match env.db 1 with
  | some m => e0 ++ errorTrace env.db 2 m []
  | none =>
    let e1 := e0 ++ [.write (update_progress 15) (dbOkAt env.db 2)]
    match env.download with
    | .error m => e1 ++ errorTrace env.db 3 m []
    | .ok src =>
      let e2 := e1 ++ [.write (update_progress 30) (dbOkAt env.db 3),
                       .write (update_progress 40) (dbOkAt env.db 4)]
      match env.ffmpeg with
      | some m => e2 ++ errorTrace env.db 5 m [src]
      | none =>
        let e3 := e2 ++ [.write (update_progress 50) (dbOkAt env.db 5),
                         .write (update_progress 60) (dbOkAt env.db 6)]
        match env.stt with
        | .error m => e3 ++ errorTrace env.db 7 m [src, mp3]
        | .ok sub =>
          let e4 := e3 ++ [.write (update_progress 95) (dbOkAt env.db 7)]
          let cw : RecWrite :=
            {subtitle := some sub, status := some "completed", progress := some 100}
          match env.db 8 with
          | some m => e4 ++ .write cw false :: errorTrace env.db 9 m [src, mp3]
          | none => e4 ++ [.write cw true, .notifySuccess, .removeFile src, .removeFile mp3]

/-- Trace model of `process_file_stt_task(record_id, file_path, ...)`; the
caller-created upload copy `file_path` exists from the start and is deleted
by the task on both paths. -/
def process_file_stt_task (env : FEnv) (record_id file_path : String) : List PEvent :=
  let mp3 := record_id ++ ".mp3"
  let e0 : List PEvent :=
    [.write (update_progress 5) (dbOkAt env.db 0),
     .write (update_progress 10) (dbOkAt env.db 1)]
  match env.normalize with
  | some m => e0 ++ errorTrace env.db 2 m [file_path]
  | none =>
    let e1 := e0 ++ [.write (update_progress 50) (dbOkAt env.db 2),
                     .write (update_progress 60) (dbOkAt env.db 3)]
    match env.stt with
    | .error m => e1 ++ errorTrace env.db 4 m [file_path, mp3]
    | .ok sub =>
      let e2 := e1 ++ [.write (update_progress 95) (dbOkAt env.db 4)]
      let cw : RecWrite :=
        {subtitle := some sub, status := some "completed", progress := some 100}
      match env.db 5 with
      | some m => e2 ++ .write cw false :: errorTrace env.db 6 m [file_path, mp3]
      | none => e2 ++ [.write cw true, .notifySuccess, .removeFile file_path, .removeFile mp3]

/-- The first raise among acquisition, transcoding and transcription in the
YouTube task, if any (the stages run in this order). -/
def yFirstErr (env : YEnv) : Option String :=
  match env.download with
  | .error m => some m
  | .ok _ =>
    match env.ffmpeg with
    | some m => some m
    | none =>
      match env.stt with
      | .error m => some m
      | .ok _ => none

/-- Temporary files the YouTube task has created when its first stage raise
(if any) happens, or on completion. -/
def yFiles (env : YEnv) (record_id : String) : List String :=
  match env.download with
  | .error _ => []
  | .ok src =>
    match env.ffmpeg with
    | some _ => [src]
    | none => [src, record_id ++ ".mp3"]

/-- The first raise among normalization and transcription in the file task. -/
def fFirstErr (env : FEnv) : Option String :=
  match env.normalize with
  | some m => some m
  | none =>
    match env.stt with
    | .error m => some m
    | .ok _ => none

/-- Temporary files present for the file task at its first stage raise (if
any) or on completion (the upload copy always exists). -/
def fFiles (env : FEnv) (record_id file_path : String) : List String :=
  match env.normalize with
  | some _ => [file_path]
  | none => [file_path, record_id ++ ".mp3"]

/-! ### Trace observations -/

/-- The record writes of a trace, in order, without the accepted flag. -/
def traceWrites : List PEvent → List RecWrite
  | [] => []
  | .write w _ :: es => w :: traceWrites es
  | _ :: es => traceWrites es

/-- Boolean: the event is a failure notification. -/
def isFailNotify : PEvent → Bool
  | .notifyFail _ => true
  | _ => false

/-- Boolean: the event is a file removal. -/
def isRemoveEvent : PEvent → Bool
  | .removeFile _ => true
  | _ => false

/-- The status under which a write lands: the status it carries, or the
previously current status when it writes none. -/
def stepStatus (cur : String) (w : RecWrite) : String := w.status.getD cur

/-- Per-write invariant of claim C8: a zero progress is written exactly in a
write whose status begins with `error:`, and progress 100 only together with
status `completed`. -/
def writeOK (w : RecWrite) : Prop :=
  (w.progress = some 0 ↔ ∃ s, w.status = some s ∧ beginsWith "error:" s) ∧
  (w.progress = some 100 → w.status = some "completed")

/-- Walk of a write sequence carrying the current status and the last
progress value seen while processing: progress is non-decreasing over the
writes landing under status `"processing"`, and every write satisfies
`writeOK`. -/
def writesOKFrom : String → ℤ → List RecWrite → Prop
  | _, _, [] => True
  | cur, last, w :: ws =>
    ((stepStatus cur w = "processing" → ∀ p, w.progress = some p → last ≤ p) ∧ writeOK w) ∧
    writesOKFrom (stepStatus cur w)
      (if stepStatus cur w = "processing" then w.progress.getD last else last) ws

/-- The full C8 invariant for one job execution: the job record starts as
`status="pending", progress=0` at submission. -/
def jobWritesOK (ws : List RecWrite) : Prop := writesOKFrom "pending" 0 ws

/-- The error outcome contract of claim C6 on a pipeline trace: exactly one
accepted terminal write, carrying the error status for `msg` and progress 0;
no `completed` write; exactly one failure notification and no success
notification; the removals are exactly the given temporary files, in order;
and no write ever carries a subtitle. -/
def errorOutcome (tr : List PEvent) (msg : String) (files : List String) : Prop :=
  tr.count (.write {status := some (errStatus msg), progress := some 0} true) = 1 ∧
  (∀ w ok, PEvent.write w ok ∈ tr → w.status ≠ some "completed") ∧
  (∀ w ok s, PEvent.write w ok ∈ tr → w.status = some s → beginsWith "error:" s →
    w = {status := some (errStatus msg), progress := some 0}) ∧
  tr.countP isFailNotify = 1 ∧
  PEvent.notifySuccess ∉ tr ∧
  tr.filter isRemoveEvent = files.map PEvent.removeFile ∧
  (∀ w ok, PEvent.write w ok ∈ tr → w.subtitle = none)

/-- The status strings carried by the record writes of a trace, in order. -/
def statusesOf (tr : List PEvent) : List String :=
  (traceWrites tr).filterMap (fun w => w.status)

/-- The progress values carried by the record writes of a trace, in order. -/
def progressesOf (tr : List PEvent) : List ℤ :=
  (traceWrites tr).filterMap (fun w => w.progress)

/-- Boolean: the event is a remote STT call. -/
def isRemoteEvent : TEvent → Bool
  | .remote _ => true
  | _ => false

/-- Boolean: the event is a bitrate re-encode. -/
def isReencodeEvent : TEvent → Bool
  | .reencode _ _ => true
  | _ => false

/-- A chunk whose transcription round succeeds: its re-encode (when the chunk
is over the ceiling) succeeds, and the remote call on the file actually sent
returns `f c`. -/
def goodChunk (env : TEnv) (c : String) (f : String → String) : Prop :=
  (maxSize < env.size c → env.reencodeOk (smallPath c) = none) ∧
  env.stt (effPath env c) = .ok (f c)

/-! ### Concrete environments used to exercise the theorems -/

/-- A transcriber environment whose input file is under the ceiling. -/
def envUnder : TEnv :=
  { size := fun _ => 1000
    dur := fun _ => 100
    extractOk := fun _ => none
    reencodeOk := fun _ => none
    stt := fun p => .ok ("text of " ++ p) }

/-- A transcriber environment with a 30MB, 1800-second input: the split
yields four chunks (the last empty), every chunk is under the ceiling, and
every remote call succeeds. -/
def envOver : TEnv :=
  { size := fun p => if p = "a.mp3" then 30 * 1024 * 1024 else 1000
    dur := fun _ => 1800
    extractOk := fun _ => none
    reencodeOk := fun _ => none
    stt := fun p => .ok ("text of " ++ p) }

/-- A transcriber environment with a 30MB, 700-second input split into two
chunks, whose second chunk's remote call raises `"boom"`. -/
def envLeak : TEnv :=
  { size := fun p => if p = "a.mp3" then 30 * 1024 * 1024 else 1000
    dur := fun _ => 700
    extractOk := fun _ => none
    reencodeOk := fun _ => none
    stt := fun p => if p = "a_chunk_1.mp3" then .error "boom" else .ok ("text of " ++ p) }

/-- A transcriber environment in which the first chunk is still over the
ceiling after the duration split, forcing the 64 kbps re-encode pass. -/
def envReenc : TEnv :=
  { size := fun p => if p = "a.mp3" then 30 * 1024 * 1024 else
      if p = "a_chunk_0.mp3" then 26 * 1024 * 1024 else 1000
    dur := fun _ => 700
    extractOk := fun _ => none
    reencodeOk := fun _ => none
    stt := fun p => .ok ("text of " ++ p) }

/-- A YouTube-task environment in which every external step succeeds. -/
def envYOk : YEnv :=
  { db := fun _ => none
    title := "T"
    download := .ok "src.webm"
    ffmpeg := none
    stt := .ok "subtitle text" }

/-- A YouTube-task environment whose transcription raises `"boom"` while the
record store always accepts writes. -/
def envYStt : YEnv :=
  { db := fun _ => none
    title := "T"
    download := .ok "src.webm"
    ffmpeg := none
    stt := .error "boom" }

/-- A YouTube-task environment in which the record store raises exactly on
the title checkpoint (write index 1) and every pipeline stage succeeds. -/
def envYDb : YEnv :=
  { db := fun k => if k = 1 then some "db down" else none
    title := "T"
    download := .ok "src.webm"
    ffmpeg := none
    stt := .ok "subtitle text" }

/-- A YouTube-task environment in which every `update_progress` checkpoint
write is rejected by the store but the direct writes succeed. -/
def envYDbFlaky : YEnv :=
  { db := fun k => if k = 1 ∨ k = 8 then none else some "down"
    title := "T"
    download := .ok "src.webm"
    ffmpeg := none
    stt := .ok "subtitle text" }

/-- A file-task environment whose transcription raises `"boom"`. -/
def envFStt : FEnv :=
  { db := fun _ => none
    normalize := none
    stt := .error "boom" }

/-- A file-task environment in which every external step succeeds. -/
def envFOk : FEnv :=
  { db := fun _ => none
    normalize := none
    stt := .ok "subtitle text" }

/-- A prefix of a pipeline trace that is still mid-flight: every record write
so far carries status `processing` (or none) and no subtitle, and no
notification or file removal has happened yet. -/
def cleanRun (tr : List PEvent) : Prop :=
  (∀ w ok, PEvent.write w ok ∈ tr →
    (w.status = none ∨ w.status = some "processing") ∧ w.subtitle = none) ∧
  tr.countP isFailNotify = 0 ∧
  PEvent.notifySuccess ∉ tr ∧
  tr.filter isRemoveEvent = []

/-- The full event trace of a successful `process_youtube_stt_task` run:
every checkpoint is attempted (with whatever outcome the store gives it),
and the run completes regardless of the checkpoint outcomes. -/
def ySuccessTrace (env : YEnv) (record_id src sub : String) : List PEvent :=
  [.write (update_progress 5) (dbOkAt env.db 0),
   .write {title := some env.title, progress := some 10} true,
   .write (update_progress 15) (dbOkAt env.db 2),
   .write (update_progress 30) (dbOkAt env.db 3),
   .write (update_progress 40) (dbOkAt env.db 4),
   .write (update_progress 50) (dbOkAt env.db 5),
   .write (update_progress 60) (dbOkAt env.db 6),
   .write (update_progress 95) (dbOkAt env.db 7),
   .write {subtitle := some sub, status := some "completed", progress := some 100} true,
   .notifySuccess, .removeFile src, .removeFile (record_id ++ ".mp3")]

/-- The full event trace of a successful `process_file_stt_task` run. -/
def fSuccessTrace (env : FEnv) (record_id file_path sub : String) : List PEvent :=
  [.write (update_progress 5) (dbOkAt env.db 0),
   .write (update_progress 10) (dbOkAt env.db 1),
   .write (update_progress 50) (dbOkAt env.db 2),
   .write (update_progress 60) (dbOkAt env.db 3),
   .write (update_progress 95) (dbOkAt env.db 4),
   .write {subtitle := some sub, status := some "completed", progress := some 100} true,
   .notifySuccess, .removeFile file_path, .removeFile (record_id ++ ".mp3")]

/-- The chunk paths `envOver`'s 1800-second input splits into. -/
def chunksOver : List String :=
  ["a_chunk_0.mp3", "a_chunk_1.mp3", "a_chunk_2.mp3", "a_chunk_3.mp3"]

/-- The extraction events `envOver`'s split performs. -/
def sevOver : List TEvent :=
  (List.range 4).map
    (fun i => TEvent.extract "a.mp3" (chunkPath "a.mp3" i) ((i : ℚ) * 600) 600)

/-- The transcript each remote call of `envOver` and `envLeak` returns. -/
def fOver : String → String := fun p => "text of " ++ p

/-! ### Helper lemmas -/

lemma beginsWith_errStatus (m : String) : beginsWith "error:" (errStatus m) := rfl

lemma not_beginsWith_error_processing : ¬ beginsWith "error:" "processing" := by decide

lemma not_beginsWith_error_completed : ¬ beginsWith "error:" "completed" := by decide

lemma errStatus_ne_processing (m : String) : errStatus m ≠ "processing" := fun h =>
  not_beginsWith_error_processing (h ▸ beginsWith_errStatus m)

lemma errStatus_ne_completed (m : String) : errStatus m ≠ "completed" := fun h =>
  not_beginsWith_error_completed (h ▸ beginsWith_errStatus m)

lemma truncQ_of_nonneg {q : ℚ} (h : 0 ≤ q) : truncQ q = ⌊q⌋ := if_pos h

lemma num_chunks_cast (d m : ℚ) (hm : 0 < m) (hd : m < d) :
    (num_chunks d m : ℤ) = ⌊d / m⌋ + 1 := by
  have hq : 0 ≤ d / m := div_nonneg (by linarith) hm.le
  have h0 : 0 ≤ ⌊d / m⌋ := Int.floor_nonneg.mpr hq
  rw [num_chunks, truncQ_of_nonneg hq, Int.toNat_of_nonneg (by omega)]

lemma extractLoop_ok (env : TEnv) (p : String) (m : ℚ)
    (hex : ∀ q, env.extractOk q = none) :
    ∀ is : List ℕ,
      extractLoop env p m is =
        (.ok (is.map (chunkPath p)),
         is.map (fun i => TEvent.extract p (chunkPath p i) ((i : ℚ) * m) m))
  | [] => rfl
  | i :: is => by
    simp only [extractLoop, hex, extractLoop_ok env p m hex is, List.map_cons]

lemma cover_spans (d m : ℚ) (hm : 0 < m) (hd : m < d) :
    (⋃ i ∈ Finset.range (num_chunks d m), clampedSpan d ((i : ℚ) * m) m) =
      Set.Ico (0 : ℚ) d := by
  ext x
  simp only [Set.mem_iUnion, clampedSpan, Set.mem_Ico, Finset.mem_range]
  constructor
  · rintro ⟨i, hi, h1, h2⟩
    have h0 : (0 : ℚ) ≤ (i : ℚ) * m := by positivity
    exact ⟨le_trans h0 h1, lt_of_lt_of_le h2 (min_le_right _ _)⟩
  · rintro ⟨h0, hxd⟩
    have hxm : 0 ≤ x / m := div_nonneg h0 hm.le
    have hjnn : 0 ≤ ⌊x / m⌋ := Int.floor_nonneg.mpr hxm
    have hcast : ((⌊x / m⌋.toNat : ℕ) : ℚ) = ((⌊x / m⌋ : ℤ) : ℚ) := by
      exact_mod_cast congrArg (fun z : ℤ => (z : ℚ)) (Int.toNat_of_nonneg hjnn)
    refine ⟨⌊x / m⌋.toNat, ?_, ?_, ?_⟩
    · have hle : x / m ≤ d / m := by gcongr
      have hff : ⌊x / m⌋ ≤ ⌊d / m⌋ := Int.floor_le_floor hle
      have hnc := num_chunks_cast d m hm hd
      have : (⌊x / m⌋.toNat : ℤ) < (num_chunks d m : ℤ) := by
        rw [hnc, Int.toNat_of_nonneg hjnn]; omega
      exact_mod_cast this
    · rw [hcast]
      have hfl : ((⌊x / m⌋ : ℤ) : ℚ) ≤ x / m := Int.floor_le _
      calc ((⌊x / m⌋ : ℤ) : ℚ) * m ≤ (x / m) * m :=
            mul_le_mul_of_nonneg_right hfl hm.le
        _ = x := div_mul_cancel₀ x hm.ne'
    · refine lt_min ?_ hxd
      rw [hcast]
      have hlt : x / m < ((⌊x / m⌋ : ℤ) : ℚ) + 1 := Int.lt_floor_add_one _
      have := mul_lt_mul_of_pos_right hlt hm
      rw [div_mul_cancel₀ x hm.ne'] at this
      linarith

/-! ### Claims -/

/-- Claim C1: for every audio file whose byte size is at or under the
24MB ceiling, `transcribe_with_openai` performs exactly one remote STT call
on it, returns that call's text verbatim, and never invokes
`split_audio_file`. -/
theorem C1_under_ceiling (env : TEnv) (p : String) (h : env.size p ≤ maxSize) :
    (transcribe_with_openai env p).1 = env.stt p ∧
    (transcribe_with_openai env p).2 = [TEvent.remote p] ∧
    ∀ q, TEvent.splitCall q ∉ (transcribe_with_openai env p).2 := by
  refine ⟨?_, ?_, ?_⟩ <;> simp [transcribe_with_openai, h]

/-- Witness for C1 at a concrete 1000-byte file. -/
theorem C1_witness :
    (transcribe_with_openai envUnder "a.mp3").1 = envUnder.stt "a.mp3" ∧
    (transcribe_with_openai envUnder "a.mp3").2 = [TEvent.remote "a.mp3"] ∧
    ∀ q, TEvent.splitCall q ∉ (transcribe_with_openai envUnder "a.mp3").2 :=
  C1_under_ceiling envUnder "a.mp3" (by decide)

/-- Claim C9: `get_audio_duration` returns 0 on any failure of the external
probe invocation (subprocess raise of any kind, or unparsable stdout)
instead of propagating; as a total Lean function it never raises. -/
theorem C9_prober_returns_zero (o : ProbeOutcome) (h : probeFailed o) :
    get_audio_duration o = 0 := by
  cases o with
  | fail _ => rfl
  | output p =>
    cases p with
    | none => rfl
    | some _ => exact absurd h (by simp [probeFailed])

/-- Witness for C9 at a concrete failed probe. -/
theorem C9_witness :
    probeFailed (ProbeOutcome.fail "no ffprobe") ∧
    get_audio_duration (ProbeOutcome.fail "no ffprobe") = 0 :=
  ⟨trivial, C9_prober_returns_zero (ProbeOutcome.fail "no ffprobe") trivial⟩

/-- Claim C3: with probed duration `d` and quantum `m`, `split_audio_file`
returns the original path untouched when `d ≤ m` (no subprocess at all), and
otherwise returns exactly `⌊d/m⌋ + 1` chunk paths, chunk `i` being extracted
from offset `i*m` with a requested span of `m` seconds, the extraction
clamping to end-of-file, so the clamped spans cover `[0, d)` without gaps. -/
theorem C3_split_shape (env : TEnv) (p : String) (m : ℚ)
    (hm : 0 < m) (hex : ∀ q, env.extractOk q = none) :
    (env.dur p ≤ m → split_audio_file env p m = (.ok [p], [])) ∧
    (m < env.dur p →
      (split_audio_file env p m).1 =
        .ok ((List.range (num_chunks (env.dur p) m)).map (chunkPath p)) ∧
      (num_chunks (env.dur p) m : ℤ) = ⌊env.dur p / m⌋ + 1 ∧
      (split_audio_file env p m).2 =
        (List.range (num_chunks (env.dur p) m)).map
          (fun i => TEvent.extract p (chunkPath p i) ((i : ℚ) * m) m) ∧
      (⋃ i ∈ Finset.range (num_chunks (env.dur p) m),
          clampedSpan (env.dur p) ((i : ℚ) * m) m) = Set.Ico 0 (env.dur p)) := by
  constructor
  · intro h
    simp [split_audio_file, h]
  · intro h
    have hnle : ¬ env.dur p ≤ m := not_le.mpr h
    refine ⟨?_, num_chunks_cast _ m hm h, ?_, cover_spans _ m hm h⟩
    · simp [split_audio_file, hnle, extractLoop_ok env p m hex]
    · simp [split_audio_file, hnle, extractLoop_ok env p m hex]

/-- Witness for C3 at a 1800-second file split with the default 600-second
quantum. -/
theorem C3_witness :
    (envOver.dur "a.mp3" ≤ 600 →
      split_audio_file envOver "a.mp3" 600 = (.ok ["a.mp3"], [])) ∧
    (600 < envOver.dur "a.mp3" →
      (split_audio_file envOver "a.mp3" 600).1 =
        .ok ((List.range (num_chunks (envOver.dur "a.mp3") 600)).map (chunkPath "a.mp3")) ∧
      (num_chunks (envOver.dur "a.mp3") 600 : ℤ) = ⌊envOver.dur "a.mp3" / 600⌋ + 1 ∧
      (split_audio_file envOver "a.mp3" 600).2 =
        (List.range (num_chunks (envOver.dur "a.mp3") 600)).map
          (fun i => TEvent.extract "a.mp3" (chunkPath "a.mp3" i) ((i : ℚ) * 600) 600) ∧
      (⋃ i ∈ Finset.range (num_chunks (envOver.dur "a.mp3") 600),
          clampedSpan (envOver.dur "a.mp3") ((i : ℚ) * 600) 600) =
        Set.Ico 0 (envOver.dur "a.mp3")) :=
  C3_split_shape envOver "a.mp3" 600 (by norm_num) (fun _ => rfl)

/-- Claim C10: when the probed duration is an exact positive multiple
`k * m` of the quantum with `d > m`, `split_audio_file` requests `k + 1`
extractions, the last starting at offset exactly `d` (the end of the audio),
so the returned sequence includes a final segment extracted from zero
remaining audio. -/
theorem C10_exact_multiple (env : TEnv) (p : String) (m : ℚ) (k : ℕ)
    (hm : 0 < m) (hk : 2 ≤ k) (hdur : env.dur p = (k : ℚ) * m)
    (hex : ∀ q, env.extractOk q = none) :
    num_chunks (env.dur p) m = k + 1 ∧
    (split_audio_file env p m).2 =
      (List.range (k + 1)).map
        (fun i => TEvent.extract p (chunkPath p i) ((i : ℚ) * m) m) ∧
    (split_audio_file env p m).2.getLast? =
      some (TEvent.extract p (chunkPath p k) ((k : ℚ) * m) m) ∧
    (k : ℚ) * m = env.dur p ∧
    clampedSpan (env.dur p) ((k : ℚ) * m) m = ∅ := by
  have hk2 : (2 : ℚ) ≤ (k : ℚ) := by exact_mod_cast hk
  have hd : m < env.dur p := by
    rw [hdur]; nlinarith
  have hdm : env.dur p / m = (k : ℚ) := by
    rw [hdur, mul_div_assoc, div_self hm.ne', mul_one]
  have hnc : num_chunks (env.dur p) m = k + 1 := by
    have : (num_chunks (env.dur p) m : ℤ) = ⌊env.dur p / m⌋ + 1 :=
      num_chunks_cast _ m hm hd
    rw [hdm] at this
    simp only [Int.floor_natCast] at this
    exact_mod_cast this
  have hev : (split_audio_file env p m).2 =
      (List.range (k + 1)).map
        (fun i => TEvent.extract p (chunkPath p i) ((i : ℚ) * m) m) := by
    simp [split_audio_file, not_le.mpr hd, extractLoop_ok env p m hex, hnc]
  refine ⟨hnc, hev, ?_, hdur.symm, ?_⟩
  · rw [hev, List.range_succ, List.map_append, List.map_cons, List.map_nil,
      List.getLast?_concat]
  · rw [hdur, clampedSpan, min_eq_right (by linarith), Set.Ico_self]

/-- Witness for C10 at duration 1800 = 3 * 600. -/
theorem C10_witness :
    num_chunks (envOver.dur "a.mp3") 600 = 3 + 1 ∧
    (split_audio_file envOver "a.mp3" 600).2 =
      (List.range (3 + 1)).map
        (fun i => TEvent.extract "a.mp3" (chunkPath "a.mp3" i) ((i : ℚ) * 600) 600) ∧
    (split_audio_file envOver "a.mp3" 600).2.getLast? =
      some (TEvent.extract "a.mp3" (chunkPath "a.mp3" 3) ((3 : ℚ) * 600) 600) ∧
    ((3 : ℕ) : ℚ) * 600 = envOver.dur "a.mp3" ∧
    clampedSpan (envOver.dur "a.mp3") (((3 : ℕ) : ℚ) * 600) 600 = ∅ :=
  C10_exact_multiple envOver "a.mp3" 600 3 (by norm_num) (by norm_num)
    (by norm_num [envOver]) (fun _ => rfl)

lemma extractLoop_remote_free (env : TEnv) (p : String) (m : ℚ) :
    ∀ is : List ℕ, (extractLoop env p m is).2.filter isRemoteEvent = []
  | [] => rfl
  | i :: is => by
    rw [extractLoop]
    cases env.extractOk (chunkPath p i) with
    | some e => simp [isRemoteEvent]
    | none =>
      rcases h : extractLoop env p m is with ⟨r, evs⟩
      have ih := extractLoop_remote_free env p m is
      rw [h] at ih
      cases r <;> simp_all [isRemoteEvent]

lemma split_remote_free (env : TEnv) (p : String) (m : ℚ) :
    (split_audio_file env p m).2.filter isRemoteEvent = [] := by
  rw [split_audio_file]
  split
  · rfl
  · exact extractLoop_remote_free env p m _

lemma extractLoop_remove_free (env : TEnv) (p : String) (m : ℚ) (x : String) :
    ∀ is : List ℕ, TEvent.removeFile x ∉ (extractLoop env p m is).2
  | [] => by simp [extractLoop]
  | i :: is => by
    rw [extractLoop]
    cases env.extractOk (chunkPath p i) with
    | some e => simp
    | none =>
      rcases h : extractLoop env p m is with ⟨r, evs⟩
      have ih := extractLoop_remove_free env p m x is
      rw [h] at ih
      cases r <;> simp_all

lemma split_remove_free (env : TEnv) (p : String) (m : ℚ) (x : String) :
    TEvent.removeFile x ∉ (split_audio_file env p m).2 := by
  rw [split_audio_file]
  split
  · simp
  · exact extractLoop_remove_free env p m x _

lemma processChunk_fst_ok (env : TEnv) (ap c : String) (f : String → String)
    (hg : goodChunk env c f) :
    (processChunk env ap c).1 = .ok (f c) ∧
    (processChunk env ap c).2.filter isRemoteEvent = [TEvent.remote (effPath env c)] := by
  obtain ⟨hre, hstt⟩ := hg
  by_cases hsz : maxSize < env.size c
  · have heff : effPath env c = smallPath c := if_pos hsz
    rw [heff] at hstt ⊢
    have hrc := hre hsz
    constructor
    · simp only [processChunk, if_pos hsz, hrc, hstt]
      split <;> rfl
    · simp only [processChunk, if_pos hsz, hrc, hstt]
      split <;> split <;> simp [isRemoteEvent]
  · have heff : effPath env c = c := if_neg hsz
    rw [heff] at hstt ⊢
    constructor
    · simp only [processChunk, if_neg hsz, hstt]
      split <;> rfl
    · simp only [processChunk, if_neg hsz, hstt]
      split <;> simp [isRemoteEvent]

lemma processChunks_good (env : TEnv) (ap : String) (f : String → String) :
    ∀ cs : List String, (∀ c ∈ cs, goodChunk env c f) →
      (processChunks env ap cs).1 = .ok (cs.map f) ∧
      (processChunks env ap cs).2.filter isRemoteEvent =
        cs.map (fun c => TEvent.remote (effPath env c))
  | [], _ => by simp [processChunks]
  | c :: cs, h => by
    obtain ⟨h1, h2⟩ := processChunk_fst_ok env ap c f (h c (by simp))
    obtain ⟨ih1, ih2⟩ := processChunks_good env ap f cs (fun c' hc' => h c' (by simp [hc']))
    rcases hpc : processChunk env ap c with ⟨r, ev⟩
    rcases hps : processChunks env ap cs with ⟨r2, ev2⟩
    rw [hpc] at h1 h2
    rw [hps] at ih1 ih2
    simp only at h1 h2 ih1 ih2
    subst h1; subst ih1
    rw [processChunks, hpc, hps]
    constructor
    · rfl
    · simp only [List.filter_append, h2, ih2, List.map_cons]
      rfl

lemma processChunk_fst_error (env : TEnv) (ap c e : String)
    (hre : maxSize < env.size c → env.reencodeOk (smallPath c) = none)
    (hstt : env.stt (effPath env c) = .error e) :
    (processChunk env ap c).1 = .error e := by
  by_cases hsz : maxSize < env.size c
  · have heff : effPath env c = smallPath c := if_pos hsz
    rw [heff] at hstt
    simp only [processChunk, if_pos hsz, hre hsz, hstt]
  · have heff : effPath env c = c := if_neg hsz
    rw [heff] at hstt
    simp only [processChunk, if_neg hsz, hstt]

lemma processChunks_abort (env : TEnv) (ap : String) (f : String → String) (e : String) :
    ∀ (cs1 : List String) (c : String) (cs2 : List String),
      (∀ c' ∈ cs1, goodChunk env c' f) →
      (maxSize < env.size c → env.reencodeOk (smallPath c) = none) →
      env.stt (effPath env c) = .error e →
      (processChunks env ap (cs1 ++ c :: cs2)).1 = .error e
  | [], c, cs2, _, hre, hstt => by
    have h1 := processChunk_fst_error env ap c e hre hstt
    rcases hpc : processChunk env ap c with ⟨r, ev⟩
    rw [hpc] at h1
    simp only at h1
    subst h1
    rw [List.nil_append, processChunks, hpc]
  | c1 :: cs1, c, cs2, h, hre, hstt => by
    obtain ⟨h1, _⟩ := processChunk_fst_ok env ap c1 f (h c1 (by simp))
    have ih := processChunks_abort env ap f e cs1 c cs2
      (fun c' hc' => h c' (by simp [hc'])) hre hstt
    rcases hpc : processChunk env ap c1 with ⟨r, ev⟩
    rcases hps : processChunks env ap (cs1 ++ c :: cs2) with ⟨r2, ev2⟩
    rw [hpc] at h1
    rw [hps] at ih
    simp only at h1 ih
    subst h1; subst ih
    rw [List.cons_append, processChunks, hpc, hps]

lemma processChunk_remove_not_ap (env : TEnv) (ap c : String) :
    TEvent.removeFile ap ∉ (processChunk env ap c).2 := by
  by_cases hsz : maxSize < env.size c
  · rcases hrc : env.reencodeOk (smallPath c) with _ | e
    · rcases hst : env.stt (smallPath c) with e | t
      · simp only [processChunk, if_pos hsz, hrc, hst]
        split
        · next h => simp [Ne.symm h]
        · simp
      · simp only [processChunk, if_pos hsz, hrc, hst]
        split
        · next h =>
          split
          · next h2 => simp [Ne.symm h, Ne.symm h2]
          · simp [Ne.symm h]
        · next h =>
          split
          · next h2 => simp [Ne.symm h2]
          · simp
    · simp only [processChunk, if_pos hsz, hrc]
      simp
  · rcases hst : env.stt c with e | t
    · simp only [processChunk, if_neg hsz, hst]
      simp
    · simp only [processChunk, if_neg hsz, hst]
      split
      · next h => simp [Ne.symm h]
      · simp

lemma processChunks_remove_not_ap (env : TEnv) (ap : String) :
    ∀ cs : List String, TEvent.removeFile ap ∉ (processChunks env ap cs).2
  | [] => by simp [processChunks]
  | c :: cs => by
    have h1 := processChunk_remove_not_ap env ap c
    have ih := processChunks_remove_not_ap env ap cs
    rw [processChunks]
    rcases hpc : processChunk env ap c with ⟨r, ev⟩
    rw [hpc] at h1
    cases r with
    | error e => exact h1
    | ok t =>
      rcases hps : processChunks env ap cs with ⟨r2, ev2⟩
      rw [hps] at ih
      cases r2 <;> simp_all

/-- Claim C2: on an over-ceiling file the transcriber invokes the splitter;
when every per-chunk round succeeds the result is the blank-line join of the
per-chunk transcripts in chunk order and the remote calls happen in chunk
order; a raise at any chunk (all earlier chunks succeeding) aborts the whole
call with exactly that error, with no partial result. -/
theorem C2_oversized (env : TEnv) (p : String) (chunks : List String)
    (sev : List TEvent) (f : String → String)
    (hbig : maxSize < env.size p)
    (hsplit : split_audio_file env p 600 = (.ok chunks, sev)) :
    (∃ rest, (transcribe_with_openai env p).2 = TEvent.splitCall p :: rest) ∧
    ((∀ c ∈ chunks, goodChunk env c f) →
      (transcribe_with_openai env p).1 =
        .ok (String.intercalate "\n\n" (chunks.map f)) ∧
      (transcribe_with_openai env p).2.filter isRemoteEvent =
        chunks.map (fun c => TEvent.remote (effPath env c))) ∧
    (∀ cs1 c cs2 e, chunks = cs1 ++ c :: cs2 →
      (∀ c' ∈ cs1, goodChunk env c' f) →
      (maxSize < env.size c → env.reencodeOk (smallPath c) = none) →
      env.stt (effPath env c) = .error e →
      (transcribe_with_openai env p).1 = .error e) := by
  have hnle : ¬ env.size p ≤ maxSize := not_le.mpr hbig
  have hsev : sev.filter isRemoteEvent = [] := by
    have h2 := congrArg Prod.snd hsplit
    simp only at h2
    rw [← h2]
    exact split_remote_free env p 600
  refine ⟨?_, ?_, ?_⟩
  · rcases hpc : processChunks env p chunks with ⟨r, ev2⟩
    cases r with
    | error e =>
      exact ⟨sev ++ ev2, by simp only [transcribe_with_openai, if_neg hnle, hsplit, hpc]⟩
    | ok ts =>
      exact ⟨sev ++ ev2, by simp only [transcribe_with_openai, if_neg hnle, hsplit, hpc]⟩
  · intro hgood
    obtain ⟨h1, h2⟩ := processChunks_good env p f chunks hgood
    rcases hpc : processChunks env p chunks with ⟨r, ev2⟩
    rw [hpc] at h1 h2
    simp only at h1 h2
    subst h1
    constructor
    · simp only [transcribe_with_openai, if_neg hnle, hsplit, hpc]
    · simp only [transcribe_with_openai, if_neg hnle, hsplit, hpc]
      simp [List.filter_append, hsev, h2, isRemoteEvent]
  · intro cs1 c cs2 e hchunks hgood1 hre hstt
    have h1 := processChunks_abort env p f e cs1 c cs2 hgood1 hre hstt
    rw [← hchunks] at h1
    rcases hpc : processChunks env p chunks with ⟨r, ev2⟩
    rw [hpc] at h1
    simp only at h1
    subst h1
    simp only [transcribe_with_openai, if_neg hnle, hsplit, hpc]

/-- Witness for C2 on `envOver`'s 30MB, 1800-second input. -/
theorem C2_witness :
    (∃ rest, (transcribe_with_openai envOver "a.mp3").2 =
      TEvent.splitCall "a.mp3" :: rest) ∧
    ((∀ c ∈ chunksOver, goodChunk envOver c fOver) →
      (transcribe_with_openai envOver "a.mp3").1 =
        .ok (String.intercalate "\n\n" (chunksOver.map fOver)) ∧
      (transcribe_with_openai envOver "a.mp3").2.filter isRemoteEvent =
        chunksOver.map (fun c => TEvent.remote (effPath envOver c))) ∧
    (∀ cs1 c cs2 e, chunksOver = cs1 ++ c :: cs2 →
      (∀ c' ∈ cs1, goodChunk envOver c' fOver) →
      (maxSize < envOver.size c → envOver.reencodeOk (smallPath c) = none) →
      envOver.stt (effPath envOver c) = .error e →
      (transcribe_with_openai envOver "a.mp3").1 = .error e) :=
  C2_oversized envOver "a.mp3" chunksOver sevOver fOver (by decide)
    (by
      have hfl : ⌊(1800 / 600 : ℚ)⌋ = 3 := by
        rw [show (1800 / 600 : ℚ) = ((3 : ℤ) : ℚ) by norm_num, Int.floor_intCast]
      have hnc : num_chunks 1800 600 = 4 := by
        rw [num_chunks, truncQ_of_nonneg (by norm_num), hfl]
        rfl
      have hdur : envOver.dur "a.mp3" = 1800 := rfl
      simp only [split_audio_file, hdur]
      rw [if_neg (by norm_num), hnc,
        extractLoop_ok envOver "a.mp3" 600 (fun _ => rfl)]
      have hc : (List.range 4).map (chunkPath "a.mp3") = chunksOver := by decide
      rw [hc]
      rfl)

lemma transcribe_remove_not_ap (env : TEnv) (ap : String) :
    TEvent.removeFile ap ∉ (transcribe_with_openai env ap).2 := by
  by_cases h : env.size ap ≤ maxSize
  · simp [transcribe_with_openai, h]
  · rcases hs : split_audio_file env ap 600 with ⟨r, sev⟩
    have h1 := split_remove_free env ap 600 ap
    rw [hs] at h1
    cases r with
    | error e =>
      simp only [transcribe_with_openai, if_neg h, hs]
      simp_all
    | ok chunks =>
      rcases hp : processChunks env ap chunks with ⟨r2, ev2⟩
      have h2 := processChunks_remove_not_ap env ap chunks
      rw [hp] at h2
      cases r2 with
      | error e =>
        simp only [transcribe_with_openai, if_neg h, hs, hp]
        simp_all
      | ok ts =>
        simp only [transcribe_with_openai, if_neg h, hs, hp]
        simp_all

lemma processChunk_ok_events (env : TEnv) (ap c : String) (f : String → String)
    (hg : goodChunk env c f) (heff : effPath env c ≠ ap) :
    ∃ pre, (processChunk env ap c).2 =
      pre ++ [TEvent.remote (effPath env c), TEvent.removeFile (effPath env c)] := by
  obtain ⟨hre, hstt⟩ := hg
  by_cases hsz : maxSize < env.size c
  · have he : effPath env c = smallPath c := if_pos hsz
    rw [he] at hstt heff ⊢
    have hrc := hre hsz
    simp only [processChunk, if_pos hsz, hrc, hstt]
    rw [if_pos heff]
    exact ⟨_, rfl⟩
  · have he : effPath env c = c := if_neg hsz
    rw [he] at hstt heff ⊢
    simp only [processChunk, if_neg hsz, hstt]
    rw [if_pos heff]
    exact ⟨[], rfl⟩

lemma processChunk_error_events (env : TEnv) (ap c e : String)
    (hre : maxSize < env.size c → env.reencodeOk (smallPath c) = none)
    (hsm : maxSize < env.size c → smallPath c ≠ c)
    (hstt : env.stt (effPath env c) = .error e) :
    (processChunk env ap c).1 = .error e ∧
    TEvent.removeFile (effPath env c) ∉ (processChunk env ap c).2 := by
  by_cases hsz : maxSize < env.size c
  · have he : effPath env c = smallPath c := if_pos hsz
    rw [he] at hstt ⊢
    have hrc := hre hsz
    constructor
    · simp only [processChunk, if_pos hsz, hrc, hstt]
    · simp only [processChunk, if_pos hsz, hrc, hstt]
      split
      · simp [hsm hsz]
      · simp
  · have he : effPath env c = c := if_neg hsz
    rw [he] at hstt ⊢
    constructor
    · simp only [processChunk, if_neg hsz, hstt]
    · simp only [processChunk, if_neg hsz, hstt]
      simp

/-- Claim C4 (amended): the caller's original file is never deleted by the
transcriber; an intermediate file is deleted immediately after its remote
transcription call returns successfully; but when the remote call raises,
the exception propagates before the cleanup line runs, so the file sent is
not deleted (it leaks, as do the not-yet-processed chunk files). -/
theorem C4_cleanup (env : TEnv) (ap c e : String) (f : String → String)
    (hre : maxSize < env.size c → env.reencodeOk (smallPath c) = none)
    (hsm : maxSize < env.size c → smallPath c ≠ c)
    (heff : effPath env c ≠ ap) :
    TEvent.removeFile ap ∉ (transcribe_with_openai env ap).2 ∧
    (goodChunk env c f →
      ∃ pre, (processChunk env ap c).2 =
        pre ++ [TEvent.remote (effPath env c), TEvent.removeFile (effPath env c)]) ∧
    (env.stt (effPath env c) = .error e →
      (processChunk env ap c).1 = .error e ∧
      TEvent.removeFile (effPath env c) ∉ (processChunk env ap c).2) :=
  ⟨transcribe_remove_not_ap env ap,
   fun hg => processChunk_ok_events env ap c f hg heff,
   fun hstt => processChunk_error_events env ap c e hre hsm hstt⟩

/-- Witness for C4 (amended) at a concrete under-ceiling chunk of `envOver`. -/
theorem C4_witness :
    TEvent.removeFile "a.mp3" ∉ (transcribe_with_openai envOver "a.mp3").2 ∧
    (goodChunk envOver "a_chunk_0.mp3" fOver →
      ∃ pre, (processChunk envOver "a.mp3" "a_chunk_0.mp3").2 =
        pre ++ [TEvent.remote (effPath envOver "a_chunk_0.mp3"),
                TEvent.removeFile (effPath envOver "a_chunk_0.mp3")]) ∧
    (envOver.stt (effPath envOver "a_chunk_0.mp3") = .error "x" →
      (processChunk envOver "a.mp3" "a_chunk_0.mp3").1 = .error "x" ∧
      TEvent.removeFile (effPath envOver "a_chunk_0.mp3") ∉
        (processChunk envOver "a.mp3" "a_chunk_0.mp3").2) :=
  C4_cleanup envOver "a.mp3" "a_chunk_0.mp3" "x" fOver (by decide) (by decide) (by decide)

/-- Counterexample to C4 as stated: in `envLeak` the remote call on the
intermediate chunk `a_chunk_1.mp3` raises, the whole call aborts with that
error, and the chunk file is never deleted — so an intermediate file is not
deleted when its transcription call raises. -/
theorem C4_counterexample :
    (transcribe_with_openai envLeak "a.mp3").1 = .error "boom" ∧
    TEvent.remote "a_chunk_1.mp3" ∈ (transcribe_with_openai envLeak "a.mp3").2 ∧
    TEvent.removeFile "a_chunk_1.mp3" ∉ (transcribe_with_openai envLeak "a.mp3").2 ∧
    "a_chunk_1.mp3" ≠ "a.mp3" := by
  have hfl : ⌊(700 / 600 : ℚ)⌋ = 1 := by
    rw [Int.floor_eq_iff]
    norm_num
  have hnc : num_chunks 700 600 = 2 := by
    rw [num_chunks, truncQ_of_nonneg (by norm_num), hfl]
    rfl
  have hdur : envLeak.dur "a.mp3" = 700 := rfl
  have hc : (List.range 2).map (chunkPath "a.mp3") = ["a_chunk_0.mp3", "a_chunk_1.mp3"] := by
    decide
  have hsp : split_audio_file envLeak "a.mp3" 600 =
      (.ok ["a_chunk_0.mp3", "a_chunk_1.mp3"],
       (List.range 2).map
         (fun i => TEvent.extract "a.mp3" (chunkPath "a.mp3" i) ((i : ℚ) * 600) 600)) := by
    simp only [split_audio_file, hdur]
    rw [if_neg (by norm_num), hnc,
      extractLoop_ok envLeak "a.mp3" 600 (fun _ => rfl), hc]
  have h0 : processChunk envLeak "a.mp3" "a_chunk_0.mp3" =
      (.ok "text of a_chunk_0.mp3",
       [TEvent.remote "a_chunk_0.mp3", TEvent.removeFile "a_chunk_0.mp3"]) := by
    decide
  have h1 : processChunk envLeak "a.mp3" "a_chunk_1.mp3" =
      (.error "boom", [TEvent.remote "a_chunk_1.mp3"]) := by
    decide
  have hps : processChunks envLeak "a.mp3" ["a_chunk_0.mp3", "a_chunk_1.mp3"] =
      (.error "boom",
       [TEvent.remote "a_chunk_0.mp3", TEvent.removeFile "a_chunk_0.mp3",
        TEvent.remote "a_chunk_1.mp3"]) := by
    simp only [processChunks, h0, h1]
    rfl
  have hbig : ¬ envLeak.size "a.mp3" ≤ maxSize := by decide
  have htr : transcribe_with_openai envLeak "a.mp3" =
      (.error "boom",
       TEvent.splitCall "a.mp3" ::
         ((List.range 2).map
           (fun i => TEvent.extract "a.mp3" (chunkPath "a.mp3" i) ((i : ℚ) * 600) 600) ++
          [TEvent.remote "a_chunk_0.mp3", TEvent.removeFile "a_chunk_0.mp3",
           TEvent.remote "a_chunk_1.mp3"])) := by
    simp only [transcribe_with_openai, if_neg hbig, hsp, hps]
  refine ⟨by rw [htr], ?_, ?_, by decide⟩
  · rw [htr]
    simp
  · rw [htr]
    simp [chunkPath]

/-- Claim C5: an over-ceiling chunk is re-encoded exactly once (at the
reduced bitrate) and the re-encoded file is then submitted to the remote
capability with no further size check (the outcome is independent of the
re-encoded file's size) and no further split. -/
theorem C5_single_reencode (env : TEnv) (ap c : String)
    (hbig : maxSize < env.size c)
    (hok : env.reencodeOk (smallPath c) = none)
    (hne : smallPath c ≠ c) :
    (processChunk env ap c).2.countP isReencodeEvent = 1 ∧
    (processChunk env ap c).2.filter isRemoteEvent = [TEvent.remote (smallPath c)] ∧
    (∀ q, TEvent.splitCall q ∉ (processChunk env ap c).2) ∧
    ∀ v, processChunk { env with size := Function.update env.size (smallPath c) v } ap c =
      processChunk env ap c := by
  have hupd : ∀ v, Function.update env.size (smallPath c) v c = env.size c :=
    fun v => Function.update_noteq (Ne.symm hne) v env.size
  refine ⟨?_, ?_, ?_, ?_⟩
  · rcases hst : env.stt (smallPath c) with e | t
    · simp only [processChunk, if_pos hbig, hok, hst]
      split <;> simp [isReencodeEvent, List.countP_cons]
    · simp only [processChunk, if_pos hbig, hok, hst]
      split <;> split <;> simp [isReencodeEvent, List.countP_cons]
  · rcases hst : env.stt (smallPath c) with e | t
    · simp only [processChunk, if_pos hbig, hok, hst]
      split <;> simp [isRemoteEvent]
    · simp only [processChunk, if_pos hbig, hok, hst]
      split <;> split <;> simp [isRemoteEvent]
  · intro q
    rcases hst : env.stt (smallPath c) with e | t
    · simp only [processChunk, if_pos hbig, hok, hst]
      split <;> simp
    · simp only [processChunk, if_pos hbig, hok, hst]
      split <;> split <;> simp
  · intro v
    simp only [processChunk, hupd v]

/-- Witness for C5 at `envReenc`'s still-oversized first chunk. -/
theorem C5_witness :
    (processChunk envReenc "a.mp3" "a_chunk_0.mp3").2.countP isReencodeEvent = 1 ∧
    (processChunk envReenc "a.mp3" "a_chunk_0.mp3").2.filter isRemoteEvent =
      [TEvent.remote (smallPath "a_chunk_0.mp3")] ∧
    (∀ q, TEvent.splitCall q ∉ (processChunk envReenc "a.mp3" "a_chunk_0.mp3").2) ∧
    ∀ v, processChunk
        { envReenc with size := Function.update envReenc.size (smallPath "a_chunk_0.mp3") v }
        "a.mp3" "a_chunk_0.mp3" =
      processChunk envReenc "a.mp3" "a_chunk_0.mp3" :=
  C5_single_reencode envReenc "a.mp3" "a_chunk_0.mp3" (by decide) (by decide) (by decide)

lemma traceWrites_append (l1 l2 : List PEvent) :
    traceWrites (l1 ++ l2) = traceWrites l1 ++ traceWrites l2 := by
  induction l1 with
  | nil => rfl
  | cons e es ih =>
    cases e <;> simp [traceWrites, ih]

lemma traceWrites_removes (files : List String) :
    traceWrites (files.map PEvent.removeFile) = [] := by
  induction files with
  | nil => rfl
  | cons f fs ih => simp [traceWrites, ih]

lemma traceWrites_errorTrace (db : ℕ → Option String) (k : ℕ) (m : String)
    (files : List String) :
    traceWrites (errorTrace db k m files) =
      [{status := some (errStatus m), progress := some 0}] := by
  rw [errorTrace]
  cases db k <;> simp [traceWrites, traceWrites_removes]

lemma processing_ne_errStatus (m : String) : "processing" ≠ errStatus m :=
  (errStatus_ne_processing m).symm

lemma completed_ne_errStatus (m : String) : "completed" ≠ errStatus m :=
  (errStatus_ne_completed m).symm

/-- Claim C7 (amended): every checkpoint write made through the
`update_progress` helper swallows a record-store failure: with the two
direct writes (the YouTube title checkpoint and the terminal write)
accepted and all stages succeeding, the run produces the full success
trace — in particular the terminal `completed` write — no matter how the
store treats the `update_progress` checkpoints.  The file task routes all
its checkpoints through `update_progress`. -/
theorem C7_checkpoints_swallowed (env : YEnv) (rid src sub : String)
    (env2 : FEnv) (rid2 fp sub2 : String)
    (h1 : env.db 1 = none) (h8 : env.db 8 = none)
    (hdl : env.download = .ok src) (hff : env.ffmpeg = none) (hstt : env.stt = .ok sub)
    (h5 : env2.db 5 = none) (hn : env2.normalize = none) (hstt2 : env2.stt = .ok sub2) :
    process_youtube_stt_task env rid = ySuccessTrace env rid src sub ∧
    PEvent.write
        {subtitle := some sub, status := some "completed", progress := some 100}
        true ∈ process_youtube_stt_task env rid ∧
    process_file_stt_task env2 rid2 fp = fSuccessTrace env2 rid2 fp sub2 ∧
    PEvent.write
        {subtitle := some sub2, status := some "completed", progress := some 100}
        true ∈ process_file_stt_task env2 rid2 fp := by
  have hy : process_youtube_stt_task env rid = ySuccessTrace env rid src sub := by
    simp [process_youtube_stt_task, ySuccessTrace, h1, h8, hdl, hff, hstt, dbOkAt]
  have hf : process_file_stt_task env2 rid2 fp = fSuccessTrace env2 rid2 fp sub2 := by
    simp [process_file_stt_task, fSuccessTrace, h5, hn, hstt2, dbOkAt]
  refine ⟨hy, ?_, hf, ?_⟩
  · rw [hy]
    simp [ySuccessTrace]
  · rw [hf]
    simp [fSuccessTrace]

/-- Witness for C7 (amended): in `envYDbFlaky` the store rejects every
`update_progress` checkpoint write, yet the run completes. -/
theorem C7_witness :
    process_youtube_stt_task envYDbFlaky "job" =
      ySuccessTrace envYDbFlaky "job" "src.webm" "subtitle text" ∧
    PEvent.write
        {subtitle := some "subtitle text", status := some "completed",
         progress := some 100}
        true ∈ process_youtube_stt_task envYDbFlaky "job" ∧
    process_file_stt_task envFOk "job2" "up.mp4" =
      fSuccessTrace envFOk "job2" "up.mp4" "subtitle text" ∧
    PEvent.write
        {subtitle := some "subtitle text", status := some "completed",
         progress := some 100}
        true ∈ process_file_stt_task envFOk "job2" "up.mp4" :=
  C7_checkpoints_swallowed envYDbFlaky "job" "src.webm" "subtitle text"
    envFOk "job2" "up.mp4" "subtitle text"
    (by decide) (by decide) rfl rfl rfl (by decide) rfl rfl

/-- Counterexample to C7 as stated: in `envYDb` the record store fails only
on the title/progress-10 checkpoint write (index 1), every pipeline stage
would succeed, yet the run aborts into the error path: the only progress
values ever written are 5, 10 and the reset 0, no later checkpoint and no
`completed` write happens. -/
theorem C7_counterexample :
    envYDb.db 1 = some "db down" ∧
    envYDb.download = .ok "src.webm" ∧ envYDb.ffmpeg = none ∧
    envYDb.stt = .ok "subtitle text" ∧
    PEvent.write {status := some (errStatus "db down"), progress := some 0} true
        ∈ process_youtube_stt_task envYDb "job" ∧
    "completed" ∉ statusesOf (process_youtube_stt_task envYDb "job") ∧
    progressesOf (process_youtube_stt_task envYDb "job") = [5, 10, 0] := by
  decide

lemma not_write_mem_removes (w : RecWrite) (ok : Bool) (files : List String) :
    PEvent.write w ok ∉ files.map PEvent.removeFile := by
  induction files with
  | nil => simp
  | cons f fs ih => simp [ih]

lemma not_notifySuccess_mem_removes (files : List String) :
    PEvent.notifySuccess ∉ files.map PEvent.removeFile := by
  induction files with
  | nil => simp
  | cons f fs ih => simp [ih]

lemma countP_fail_removes (files : List String) :
    (files.map PEvent.removeFile).countP isFailNotify = 0 := by
  induction files with
  | nil => rfl
  | cons f fs ih => simp [List.countP_cons, isFailNotify, ih]

lemma filter_remove_removes (files : List String) :
    (files.map PEvent.removeFile).filter isRemoveEvent = files.map PEvent.removeFile := by
  induction files with
  | nil => rfl
  | cons f fs ih => simp [List.filter_cons, isRemoveEvent, ih]

lemma errorOutcome_of_clean (pref : List PEvent) (db : ℕ → Option String) (k : ℕ)
    (m : String) (files : List String) (tr : List PEvent)
    (htr : tr = pref ++ errorTrace db k m files)
    (hdb : db k = none) (hc : cleanRun pref) :
    errorOutcome tr m files := by
  obtain ⟨hw, hcnt, hns, hrm⟩ := hc
  have het : errorTrace db k m files =
      PEvent.write {status := some (errStatus m), progress := some 0} true ::
        PEvent.notifyFail (pyTrunc m 200) :: files.map PEvent.removeFile := by
    rw [errorTrace, hdb]
  have hmempref : PEvent.write {status := some (errStatus m), progress := some 0} true
      ∉ pref := by
    intro hmem
    rcases (hw _ _ hmem).1 with h | h
    · exact absurd h (by simp)
    · rw [Option.some.injEq] at h
      exact errStatus_ne_processing m (h.symm ▸ rfl)
  subst htr
  rw [het]
  refine ⟨?_, ?_, ?_, ?_, ?_, ?_, ?_⟩
  · rw [List.count_append]
    rw [List.count_eq_zero.mpr hmempref]
    simp [List.count_cons, List.count_eq_zero.mpr (not_write_mem_removes _ _ files)]
  · intro w ok hmem
    simp only [List.mem_append, List.mem_cons] at hmem
    rcases hmem with h | h | h | h
    · rcases (hw _ _ h).1 with h2 | h2 <;> simp [h2]
    · have hst : w.status = some (errStatus m) := by
        rw [PEvent.write.injEq] at h
        rw [h.1]
      rw [hst]
      simp [errStatus_ne_completed]
    · exact absurd h (by simp)
    · exact absurd h (not_write_mem_removes _ _ files)
  · intro w ok s hmem hs hbw
    simp only [List.mem_append, List.mem_cons] at hmem
    rcases hmem with h | h | h | h
    · rcases (hw _ _ h).1 with h2 | h2
      · rw [h2] at hs
        exact absurd hs (by simp)
      · rw [h2, Option.some.injEq] at hs
        rw [← hs] at hbw
        exact absurd hbw not_beginsWith_error_processing
    · rw [PEvent.write.injEq] at h
      exact h.1
    · exact absurd h (by simp)
    · exact absurd h (not_write_mem_removes _ _ files)
  · rw [List.countP_append, hcnt]
    simp [List.countP_cons, isFailNotify, countP_fail_removes files]
  · rw [List.mem_append]
    rintro (h | h)
    · exact hns h
    · simp only [List.mem_cons] at h
      rcases h with h | h | h
      · exact absurd h (by simp)
      · exact absurd h (by simp)
      · exact absurd h (not_notifySuccess_mem_removes files)
  · rw [List.filter_append, hrm]
    simp [List.filter_cons, isRemoveEvent, filter_remove_removes files]
  · intro w ok hmem
    simp only [List.mem_append, List.mem_cons] at hmem
    rcases hmem with h | h | h | h
    · exact (hw _ _ h).2
    · rw [PEvent.write.injEq] at h
      rw [h.1]
    · exact absurd h (by simp)
    · exact absurd h (not_write_mem_removes _ _ files)

/-- Claim C6 (amended): on the first raise in acquisition, transcoding or
transcription, with the record store accepting writes, the pipeline makes
exactly one terminal record update — status `"error: "` (colon and space)
followed by the message truncated to 200 characters, with progress reset to
0 — fires exactly one failure notification, removes exactly the temporary
files it had created, never writes a subtitle, and terminates. -/
theorem C6_error_contract (env : YEnv) (rid msg : String)
    (env2 : FEnv) (rid2 fp msg2 : String)
    (hdb : ∀ k, env.db k = none) (hy : yFirstErr env = some msg)
    (hdb2 : ∀ k, env2.db k = none) (hf : fFirstErr env2 = some msg2) :
    errorOutcome (process_youtube_stt_task env rid) msg (yFiles env rid) ∧
    errorOutcome (process_file_stt_task env2 rid2 fp) msg2 (fFiles env2 rid2 fp) := by
  constructor
  · cases hdl : env.download with
    | error m0 =>
      rw [yFirstErr, hdl, Option.some.injEq] at hy
      subst hy
      have hfiles : yFiles env rid = [] := by
        rw [yFiles, hdl]
      rw [hfiles]
      refine errorOutcome_of_clean
        [.write (update_progress 5) true,
         .write {title := some env.title, progress := some 10} true,
         .write (update_progress 15) true]
        env.db 3 m0 [] _ ?_ (hdb 3) ?_
      · simp [process_youtube_stt_task, hdb, hdl, dbOkAt]
      · refine ⟨?_, by simp [isFailNotify], by simp, by simp [isRemoveEvent]⟩
        intro w ok hmem
        simp only [List.mem_cons, List.not_mem_nil, or_false] at hmem
        rcases hmem with h | h | h <;>
          · rw [PEvent.write.injEq] at h
            rw [h.1]
            simp [update_progress]
    | ok src =>
      cases hff : env.ffmpeg with
      | some m0 =>
        rw [yFirstErr, hdl, hff, Option.some.injEq] at hy
        subst hy
        have hfiles : yFiles env rid = [src] := by
          rw [yFiles, hdl, hff]
        rw [hfiles]
        refine errorOutcome_of_clean
          [.write (update_progress 5) true,
           .write {title := some env.title, progress := some 10} true,
           .write (update_progress 15) true,
           .write (update_progress 30) true,
           .write (update_progress 40) true]
          env.db 5 m0 [src] _ ?_ (hdb 5) ?_
        · simp [process_youtube_stt_task, hdb, hdl, hff, dbOkAt]
        · refine ⟨?_, by simp [isFailNotify], by simp, by simp [isRemoveEvent]⟩
          intro w ok hmem
          simp only [List.mem_cons, List.not_mem_nil, or_false] at hmem
          rcases hmem with h | h | h | h | h <;>
            · rw [PEvent.write.injEq] at h
              rw [h.1]
              simp [update_progress]
      | none =>
        cases hstt : env.stt with
        | error m0 =>
          rw [yFirstErr, hdl, hff, hstt, Option.some.injEq] at hy
          subst hy
          have hfiles : yFiles env rid = [src, rid ++ ".mp3"] := by
            rw [yFiles, hdl, hff]
          rw [hfiles]
          refine errorOutcome_of_clean
            [.write (update_progress 5) true,
             .write {title := some env.title, progress := some 10} true,
             .write (update_progress 15) true,
             .write (update_progress 30) true,
             .write (update_progress 40) true,
             .write (update_progress 50) true,
             .write (update_progress 60) true]
            env.db 7 m0 [src, rid ++ ".mp3"] _ ?_ (hdb 7) ?_
          · simp [process_youtube_stt_task, hdb, hdl, hff, hstt, dbOkAt]
          · refine ⟨?_, by simp [isFailNotify], by simp, by simp [isRemoveEvent]⟩
            intro w ok hmem
            simp only [List.mem_cons, List.not_mem_nil, or_false] at hmem
            rcases hmem with h | h | h | h | h | h | h <;>
              · rw [PEvent.write.injEq] at h
                rw [h.1]
                simp [update_progress]
        | ok sub =>
          rw [yFirstErr, hdl, hff, hstt] at hy
          exact absurd hy (by simp)
  · cases hn : env2.normalize with
    | some m0 =>
      rw [fFirstErr, hn, Option.some.injEq] at hf
      subst hf
      have hfiles : fFiles env2 rid2 fp = [fp] := by
        rw [fFiles, hn]
      rw [hfiles]
      refine errorOutcome_of_clean
        [.write (update_progress 5) true,
         .write (update_progress 10) true]
        env2.db 2 m0 [fp] _ ?_ (hdb2 2) ?_
      · simp [process_file_stt_task, hdb2, hn, dbOkAt]
      · refine ⟨?_, by simp [isFailNotify], by simp, by simp [isRemoveEvent]⟩
        intro w ok hmem
        simp only [List.mem_cons, List.not_mem_nil, or_false] at hmem
        rcases hmem with h | h <;>
          · rw [PEvent.write.injEq] at h
            rw [h.1]
            simp [update_progress]
    | none =>
      cases hstt : env2.stt with
      | error m0 =>
        rw [fFirstErr, hn, hstt, Option.some.injEq] at hf
        subst hf
        have hfiles : fFiles env2 rid2 fp = [fp, rid2 ++ ".mp3"] := by
          rw [fFiles, hn]
        rw [hfiles]
        refine errorOutcome_of_clean
          [.write (update_progress 5) true,
           .write (update_progress 10) true,
           .write (update_progress 50) true,
           .write (update_progress 60) true]
          env2.db 4 m0 [fp, rid2 ++ ".mp3"] _ ?_ (hdb2 4) ?_
        · simp [process_file_stt_task, hdb2, hn, hstt, dbOkAt]
        · refine ⟨?_, by simp [isFailNotify], by simp, by simp [isRemoveEvent]⟩
          intro w ok hmem
          simp only [List.mem_cons, List.not_mem_nil, or_false] at hmem
          rcases hmem with h | h | h | h <;>
            · rw [PEvent.write.injEq] at h
              rw [h.1]
              simp [update_progress]
      | ok sub =>
        rw [fFirstErr, hn, hstt] at hf
        exact absurd hf (by simp)

/-- Witness for C6 (amended) at a transcription failure `"boom"` in both
tasks, with an always-accepting record store. -/
theorem C6_witness :
    errorOutcome (process_youtube_stt_task envYStt "job") "boom" (yFiles envYStt "job") ∧
    errorOutcome (process_file_stt_task envFStt "job2" "up.mp4") "boom"
      (fFiles envFStt "job2" "up.mp4") :=
  C6_error_contract envYStt "job" "boom" envFStt "job2" "up.mp4" "boom"
    (fun _ => rfl) rfl (fun _ => rfl) rfl

/-- Counterexample to C6 as stated: when the transcription raises `"boom"`
the status written is `"error: boom"` — `"error: "` with a space — and the
string `"error:" ++ "boom"` the claim prescribes is never written. -/
theorem C6_counterexample :
    yFirstErr envYStt = some "boom" ∧
    "error: boom" ∈ statusesOf (process_youtube_stt_task envYStt "job") ∧
    "error:" ++ "boom" ∉ statusesOf (process_youtube_stt_task envYStt "job") := by
  decide

/-- Claim C8: over any single execution of either task, the progress values
written while the record's status is `processing` are non-decreasing; a zero
progress is written exactly in a write whose status begins with `error:`;
and progress reaches 100 only in the write that also sets status
`completed`. -/
theorem C8_progress_invariants (env : YEnv) (rid : String) (env2 : FEnv)
    (rid2 fp : String) :
    jobWritesOK (traceWrites (process_youtube_stt_task env rid)) ∧
    jobWritesOK (traceWrites (process_file_stt_task env2 rid2 fp)) := by
  constructor
  · cases hdb1 : env.db 1 with
    | some m =>
      simp [process_youtube_stt_task, hdb1, traceWrites_append, traceWrites,
        traceWrites_errorTrace, jobWritesOK, writesOKFrom, stepStatus, writeOK,
        update_progress, beginsWith_errStatus, errStatus_ne_processing,
        errStatus_ne_completed, not_beginsWith_error_processing,
        not_beginsWith_error_completed]
    | none =>
      cases hdl : env.download with
      | error m =>
        simp [process_youtube_stt_task, hdb1, hdl, traceWrites_append, traceWrites,
          traceWrites_errorTrace, jobWritesOK, writesOKFrom, stepStatus, writeOK,
          update_progress, beginsWith_errStatus, errStatus_ne_processing,
          errStatus_ne_completed, not_beginsWith_error_processing,
          not_beginsWith_error_completed]
      | ok src =>
        cases hff : env.ffmpeg with
        | some m =>
          simp [process_youtube_stt_task, hdb1, hdl, hff, traceWrites_append,
            traceWrites, traceWrites_errorTrace, jobWritesOK, writesOKFrom,
            stepStatus, writeOK, update_progress, beginsWith_errStatus,
            errStatus_ne_processing, errStatus_ne_completed,
            not_beginsWith_error_processing, not_beginsWith_error_completed]
        | none =>
          cases hstt : env.stt with
          | error m =>
            simp [process_youtube_stt_task, hdb1, hdl, hff, hstt,
              traceWrites_append, traceWrites, traceWrites_errorTrace,
              jobWritesOK, writesOKFrom, stepStatus, writeOK, update_progress,
              beginsWith_errStatus, errStatus_ne_processing,
              errStatus_ne_completed, not_beginsWith_error_processing,
              not_beginsWith_error_completed]
          | ok sub =>
            cases hdb8 : env.db 8 with
            | some m =>
              simp [process_youtube_stt_task, hdb1, hdl, hff, hstt, hdb8,
                traceWrites_append, traceWrites, traceWrites_errorTrace,
                jobWritesOK, writesOKFrom, stepStatus, writeOK, update_progress,
                beginsWith_errStatus, errStatus_ne_processing,
                errStatus_ne_completed, not_beginsWith_error_processing,
                not_beginsWith_error_completed]
            | none =>
              simp [process_youtube_stt_task, hdb1, hdl, hff, hstt, hdb8,
                traceWrites_append, traceWrites, traceWrites_errorTrace,
                jobWritesOK, writesOKFrom, stepStatus, writeOK, update_progress,
                beginsWith_errStatus, errStatus_ne_processing,
                errStatus_ne_completed, not_beginsWith_error_processing,
                not_beginsWith_error_completed]
  · cases hn : env2.normalize with
    | some m =>
      simp [process_file_stt_task, hn, traceWrites_append, traceWrites,
        traceWrites_errorTrace, jobWritesOK, writesOKFrom, stepStatus, writeOK,
        update_progress, beginsWith_errStatus, errStatus_ne_processing,
        errStatus_ne_completed, not_beginsWith_error_processing,
        not_beginsWith_error_completed]
    | none =>
      cases hstt2 : env2.stt with
      | error m =>
        simp [process_file_stt_task, hn, hstt2, traceWrites_append, traceWrites,
          traceWrites_errorTrace, jobWritesOK, writesOKFrom, stepStatus, writeOK,
          update_progress, beginsWith_errStatus, errStatus_ne_processing,
          errStatus_ne_completed, not_beginsWith_error_processing,
          not_beginsWith_error_completed]
      | ok sub =>
        cases hdb5 : env2.db 5 with
        | some m =>
          simp [process_file_stt_task, hn, hstt2, hdb5, traceWrites_append,
            traceWrites, traceWrites_errorTrace, jobWritesOK, writesOKFrom,
            stepStatus, writeOK, update_progress, beginsWith_errStatus,
            errStatus_ne_processing, errStatus_ne_completed,
            not_beginsWith_error_processing, not_beginsWith_error_completed]
        | none =>
          simp [process_file_stt_task, hn, hstt2, hdb5, traceWrites_append,
            traceWrites, traceWrites_errorTrace, jobWritesOK, writesOKFrom,
            stepStatus, writeOK, update_progress, beginsWith_errStatus,
            errStatus_ne_processing, errStatus_ne_completed,
            not_beginsWith_error_processing, not_beginsWith_error_completed]

end YoutubeSTT
